import Mathlib

/-!
Verification development for the Farseek repository (a stateless fork of an
infrastructure-as-code engine).  We shallowly embed the code relevant to the
spec claims:

* `filterPlanChanges` from `internal/backend/local/backend_stateless.go`
  (the FarseekMode update-suppression pass over a plan's resource changes);
* the control flow of `opApply` and `backupStateForError` from
  `internal/backend/local` (apply operation of the local backend);
* the "no migration needed" shortcut of `backendMigrateState_s_s` from
  `internal/command/meta_backend_migrate.go`;
* `ReadSHA`/`WriteSHA` from `internal/farseek/sha.go`;
* a model of the state encryption collaborator (its implementation is not
  part of the analyzed sources; modelled from the spec).
-/

namespace Farseek

/-! ## cty values

A structural model of `cty.Value` as used by the diff logic: the only
operation `filterPlanChanges` performs on individual attribute values is
structural equality (`cty.Value.RawEquals`), so we model an attribute value
as a sum of the scalar kinds plus an atom `coll` carrying the canonical
serialized form of any collection/structural value (list, set, map, nested
object); `RawEquals` is then decidable equality on this type. -/

inductive CtyVal where
  | nullV : CtyVal
  | boolV (b : Bool) : CtyVal
  | num (n : Int) : CtyVal
  | str (s : String) : CtyVal
  | coll (canonical : String) : CtyVal
deriving DecidableEq, Repr

/-- An object value's fields, as produced by `cty.Value.AsValueMap`:
an association list from attribute name to value. -/
abbrev AttrMap := List (String × CtyVal)

/-- Association-list lookup, modelling Go's `m[attr]` map access together
with its `existed` flag (`none` = attribute not present). -/
def lookupAttr : AttrMap → String → Option CtyVal
  | [], _ => none
  | (k, v) :: rest, attr => if k = attr then some v else lookupAttr rest attr

/-- Structural equality of two object values given as attribute maps,
modelling `cty.Value.RawEquals` on two object values: the objects are equal
iff they bind exactly the same attributes to equal values. -/
def objEq (a b : AttrMap) : Bool :=
  decide (a.length = b.length)
    && a.all (fun p => lookupAttr b p.1 == some p.2)
    && b.all (fun p => lookupAttr a p.1 == some p.2)

/-! ## Plan changes

The `plans.Action` enumeration and the per-resource `Change` record, as
described by the data model (the `plans` package itself is an external
collaborator of the analyzed file; `filterPlanChanges` consumes only
`Action`, `Before` and `After`).  `before`/`after` hold the result of
`Decode` at the resource type's implied object type, as attribute maps. -/

inductive Action where
  | noOp | create | update | delete | createThenDelete | deleteThenCreate
deriving DecidableEq, Repr

structure ResourceChange where
  action : Action
  before : AttrMap
  after : AttrMap
deriving DecidableEq, Repr

/-- The parts of a resource's configuration consulted by
`filterPlanChanges`: when the config body is an `hclsyntax.Body`
(`isSyntaxBody`), the attribute names and block types it declares;
otherwise only the attributes returned by the `JustAttributes` fallback. -/
structure ResConfig where
  isSyntaxBody : Bool
  attrs : List String
  blockTypes : List String
deriving DecidableEq, Repr

/-- Embedding of `inConfigFunc` from `filterPlanChanges`: an attribute name counts as
present in configuration if the syntax body declares it as an attribute or
as a block type; in the `JustAttributes` fallback, only as an attribute. -/
def inConfig (c : ResConfig) (name : String) : Bool :=
  if c.isSyntaxBody then c.attrs.contains name || c.blockTypes.contains name
  else c.attrs.contains name

/-- The per-attribute rewrite inside the `for attr, newVal := range afterMap`
loop of `filterPlanChanges`: keep the new value when it equals the old one
or when the attribute is configured; revert to the old value when the
attribute existed before but is not configured; keep brand-new attributes. -/
def newAfterValue (c : ResConfig) (beforeMap : AttrMap) (attr : String)
    (newVal : CtyVal) : CtyVal :=
  match lookupAttr beforeMap attr with
  | some oldVal =>
    if oldVal = newVal then newVal
    else if inConfig c attr then newVal
    else oldVal
  | none => newVal

/-- The `newAfterMap` built by the loop: same attributes as `afterMap`,
each value rewritten by `newAfterValue`. -/
def newAfterMap (c : ResConfig) (beforeMap afterMap : AttrMap) : AttrMap :=
  afterMap.map (fun p => (p.1, newAfterValue c beforeMap p.1 p.2))

/-- Whether the loop sets `changed = true` for a given after-map entry:
exactly the "revert to old value" branch (attribute existed before, value
differs, and the attribute is not in configuration). -/
def revertedAttr (c : ResConfig) (beforeMap : AttrMap)
    (p : String × CtyVal) : Bool :=
  match lookupAttr beforeMap p.1 with
  | some oldVal => !(oldVal == p.2) && !inConfig c p.1
  | none => false

/-- The final value of the loop's `changed` flag. -/
def changedFlag (c : ResConfig) (beforeMap afterMap : AttrMap) : Bool :=
  afterMap.any (revertedAttr c beforeMap)

/-- One iteration of `filterPlanChanges` over `plan.Changes.Resources`.
`cfg` is the result of the module/resource config lookup (`none` models the
`continue` when no configuration is found); `ctyOk` collapses the fallible
cty plumbing of the iteration (schema fetch, `ResourceTypeConfig`,
`Decode` of Before/After, object-type checks and re-encoding), `false`
modelling the corresponding `continue` paths.  On success, `After` becomes
the rewritten object and the action drops to `NoOp` exactly when the
rewritten After equals Before (`RawEquals`). -/
def filterResourceChange (cfg : Option ResConfig) (ctyOk : Bool)
    (rc : ResourceChange) : ResourceChange :=
  if rc.action ≠ Action.update then rc
  else
    match cfg with
    | none => rc
    | some c =>
      if !ctyOk then rc
      else
        let nam := newAfterMap c rc.before rc.after
        if changedFlag c rc.before rc.after then
          { rc with
            after := nam
            action := if objEq rc.before nam then Action.noOp else rc.action }
        else rc

/-- A resource change of a plan together with the per-change environment
(`filterPlanChanges` looks up each change's resource configuration and
schema on the fly). -/
structure PlanEntry where
  config : Option ResConfig
  ctyOk : Bool
  rc : ResourceChange
deriving DecidableEq, Repr

/-- Embedding of `filterPlanChanges` from `backend_stateless.go`: a no-op unless
`op.FarseekMode` is set and the plan (with its change set) is non-nil;
otherwise it rewrites each resource change in place. -/
def filterPlanChanges (farseekMode : Bool)
    (plan : Option (List PlanEntry)) : Option (List PlanEntry) :=
  if !farseekMode then plan
  else
    match plan with
    | none => none
    | some entries =>
      some (entries.map fun e =>
        { e with rc := filterResourceChange e.config e.ctyOk e.rc })

/-! ### Helper lemmas about attribute-map lookup -/

theorem lookupAttr_mem {a : AttrMap} {k : String} {v : CtyVal}
    (h : lookupAttr a k = some v) : (k, v) ∈ a := by
  induction a with
  | nil => simp [lookupAttr] at h
  | cons p rest ih =>
    obtain ⟨k', v'⟩ := p
    by_cases hk : k' = k
    · subst hk
      simp [lookupAttr] at h
      simp [h]
    · simp [lookupAttr, hk] at h
      exact List.mem_cons_of_mem _ (ih h)

theorem lookupAttr_map_keyed (g : String → CtyVal → CtyVal) (a : AttrMap)
    (k : String) :
    lookupAttr (a.map fun p => (p.1, g p.1 p.2)) k
      = (lookupAttr a k).map (g k) := by
  induction a with
  | nil => simp [lookupAttr]
  | cons p rest ih =>
    obtain ⟨k', v'⟩ := p
    by_cases hk : k' = k
    · subst hk; simp [lookupAttr]
    · simp [lookupAttr, hk, ih]

theorem inConfig_eq_false {c : ResConfig} {attr : String}
    (hattr : attr ∉ c.attrs) (hblk : attr ∉ c.blockTypes) :
    inConfig c attr = false := by
  cases h : c.isSyntaxBody <;> simp [inConfig, h, hattr, hblk]

theorem filterResourceChange_preserves_unconfigured
    (c : ResConfig) (rc : ResourceChange) (attr : String) (oldV newV : CtyVal)
    (hact : rc.action = Action.update)
    (hold : lookupAttr rc.before attr = some oldV)
    (hnew : lookupAttr rc.after attr = some newV)
    (hne : oldV ≠ newV)
    (hattr : attr ∉ c.attrs) (hblk : attr ∉ c.blockTypes) :
    lookupAttr (filterResourceChange (some c) true rc).after attr
      = some oldV := by
  have hin : inConfig c attr = false := inConfig_eq_false hattr hblk
  have hrev : revertedAttr c rc.before (attr, newV) = true := by
    simp [revertedAttr, hold, hin, hne]
  have hchanged : changedFlag c rc.before rc.after = true :=
    List.any_eq_true.mpr ⟨(attr, newV), lookupAttr_mem hnew, hrev⟩
  have hlook :
      lookupAttr (newAfterMap c rc.before rc.after) attr
        = some (newAfterValue c rc.before attr newV) := by
    rw [newAfterMap, lookupAttr_map_keyed, hnew]
    rfl
  have hval : newAfterValue c rc.before attr newV = oldV := by
    simp [newAfterValue, hold, hin, hne]
  simp only [filterResourceChange, hact, hchanged]
  simpa [hval] using hlook

theorem filterResourceChange_before (cfg : Option ResConfig) (ok : Bool)
    (rc : ResourceChange) :
    (filterResourceChange cfg ok rc).before = rc.before := by
  unfold filterResourceChange
  split
  · rfl
  · split
    · rfl
    · split
      · rfl
      · split <;> rfl

theorem filterResourceChange_noOp (cfg : Option ResConfig) (ok : Bool)
    (rc : ResourceChange)
    (h : (filterResourceChange cfg ok rc).action = Action.noOp) :
    rc.action = Action.noOp ∨
      (rc.action = Action.update ∧
        objEq rc.before (filterResourceChange cfg ok rc).after = true) := by
  unfold filterResourceChange at h ⊢
  split at h
  · exact Or.inl h
  · rename_i hact
    have hupd : rc.action = Action.update := by
      by_contra hne
      exact hact (fun h2 => hne h2)
    split at h
    · exact Or.inl h
    · rename_i c
      split at h
      · exact Or.inl h
      · rename_i hok
        split at h
        · rename_i hchanged
          simp only at h
          split at h
          · rename_i heq
            refine Or.inr ⟨hupd, ?_⟩
            simp only [hact, hok, hchanged, if_false]
            simp [heq]
          · exact absurd (h.symm.trans hupd) (by simp)
        · rw [h] at hupd
          exact absurd hupd (by simp)

/-- The per-entry rewrite `filterPlanChanges` applies in FarseekMode. -/
def filterEntry (e : PlanEntry) : PlanEntry :=
  { e with rc := filterResourceChange e.config e.ctyOk e.rc }

theorem filterPlanChanges_farseek (entries : List PlanEntry) :
    filterPlanChanges true (some entries) = some (entries.map filterEntry) :=
  rfl

/-- C1: in FarseekMode, for an Update resource change whose attribute value
differs between Before and After, where the attribute is declared neither
as an attribute nor as a block type of the resource's configuration but
existed in the prior state, `filterPlanChanges` rewrites the After object
so that this attribute carries its Before value. -/
theorem c1_farseek_filter_preserves_unconfigured
    (entries : List PlanEntry) (i : Nat) (e : PlanEntry)
    (he : entries[i]? = some e)
    (c : ResConfig) (attr : String) (oldV newV : CtyVal)
    (hc : e.config = some c)
    (hok : e.ctyOk = true)
    (hact : e.rc.action = Action.update)
    (hold : lookupAttr e.rc.before attr = some oldV)
    (hnew : lookupAttr e.rc.after attr = some newV)
    (hne : oldV ≠ newV)
    (hattr : attr ∉ c.attrs) (hblk : attr ∉ c.blockTypes) :
    ∃ res : List PlanEntry, ∃ e' : PlanEntry,
      filterPlanChanges true (some entries) = some res ∧
        res[i]? = some e' ∧
        lookupAttr e'.rc.after attr = some oldV := by
  refine ⟨entries.map filterEntry, filterEntry e,
    filterPlanChanges_farseek entries, by simp [he], ?_⟩
  show lookupAttr (filterResourceChange e.config e.ctyOk e.rc).after attr
    = some oldV
  rw [hc, hok]
  exact filterResourceChange_preserves_unconfigured c e.rc attr oldV newV
    hact hold hnew hne hattr hblk

/-- Witness for C1 at a concrete plan: one Update change whose `ami`
attribute changes from "ami-12345" to null, with only `name` configured;
the filtered After keeps `ami = "ami-12345"`. -/
theorem c1_witness :
    ∃ res : List PlanEntry, ∃ e' : PlanEntry,
      filterPlanChanges true
        (some [{ config := some ⟨true, ["name"], []⟩, ctyOk := true,
                 rc := { action := Action.update,
                         before := [("name", CtyVal.str "x"),
                                    ("ami", CtyVal.str "ami-12345")],
                         after := [("name", CtyVal.str "x"),
                                   ("ami", CtyVal.nullV)] } }]) = some res ∧
        res[0]? = some e' ∧
        lookupAttr e'.rc.after "ami" = some (CtyVal.str "ami-12345") :=
  c1_farseek_filter_preserves_unconfigured _ 0
    { config := some ⟨true, ["name"], []⟩, ctyOk := true,
      rc := { action := Action.update,
              before := [("name", CtyVal.str "x"),
                         ("ami", CtyVal.str "ami-12345")],
              after := [("name", CtyVal.str "x"), ("ami", CtyVal.nullV)] } }
    rfl ⟨true, ["name"], []⟩ "ami" (CtyVal.str "ami-12345") CtyVal.nullV
    rfl rfl rfl rfl rfl (by decide) (by decide) (by decide)

/-- C4: `filterPlanChanges` sets a change's action to `NoOp` only by
downgrading an `Update` whose rewritten After is `RawEquals`-equal to its
Before; it never invents a `NoOp` otherwise, and it never touches Before,
so `NoOp` in its output still implies Before == After. -/
theorem c4_filter_noop_implies_before_eq_after
    (entries : List PlanEntry) (i : Nat) (e : PlanEntry)
    (he : entries[i]? = some e) :
    ∃ res : List PlanEntry, ∃ e' : PlanEntry,
      filterPlanChanges true (some entries) = some res ∧
        res[i]? = some e' ∧
        e'.rc.before = e.rc.before ∧
        (e'.rc.action = Action.noOp →
          e.rc.action = Action.noOp ∨
            (e.rc.action = Action.update ∧
              objEq e'.rc.before e'.rc.after = true)) := by
  refine ⟨entries.map filterEntry, filterEntry e,
    filterPlanChanges_farseek entries, by simp [he],
    filterResourceChange_before _ _ _, ?_⟩
  intro hno
  rcases filterResourceChange_noOp e.config e.ctyOk e.rc hno with h | ⟨hupd, heq⟩
  · exact Or.inl h
  · exact Or.inr ⟨hupd, by
      simpa [filterEntry, filterResourceChange_before] using heq⟩

/-- Witness for C4: a concrete Update change whose sole differing attribute
is unconfigured, so the rewritten After equals Before and the action drops
to NoOp with Before == After. -/
theorem c4_witness :
    ∃ res : List PlanEntry, ∃ e' : PlanEntry,
      filterPlanChanges true
        (some [{ config := some ⟨true, ["name"], []⟩, ctyOk := true,
                 rc := { action := Action.update,
                         before := [("ami", CtyVal.str "a")],
                         after := [("ami", CtyVal.str "b")] } }]) = some res ∧
        res[0]? = some e' ∧
        e'.rc.before = [("ami", CtyVal.str "a")] ∧
        (e'.rc.action = Action.noOp →
          Action.update = Action.noOp ∨
            (Action.update = Action.update ∧
              objEq e'.rc.before e'.rc.after = true)) :=
  c4_filter_noop_implies_before_eq_after
    [{ config := some ⟨true, ["name"], []⟩, ctyOk := true,
       rc := { action := Action.update,
               before := [("ami", CtyVal.str "a")],
               after := [("ami", CtyVal.str "b")] } }] 0
    { config := some ⟨true, ["name"], []⟩, ctyOk := true,
      rc := { action := Action.update,
              before := [("ami", CtyVal.str "a")],
              after := [("ami", CtyVal.str "b")] } } rfl

/-! ## The local backend's apply operation

A control-flow embedding of `opApply` and `backupStateForError` from the
local backend.  Outcomes of the external collaborators (`localRun`,
`Core.Schemas`, `Core.Plan`, `Core.Apply`, the state manager, the UI) are
inputs in `ApplyEnv`; the function produces the ordered trace of the
observable calls it makes.  Diagnostics are modelled by their summary title
and severity. -/

structure Diag where
  title : String
  isErr : Bool
deriving DecidableEq, Repr

/-- Embedding of `tfdiags.Diagnostics.HasErrors`. -/
def hasErrors (ds : List Diag) : Bool := ds.any (·.isErr)

inductive Event where
  | experimentalRuntime
  | localRun
  | corePlanCall
  | viewPlan
  | viewDiagnostics
  | viewCancelled
  | plannedChange
  | coreApplyCall
  | writeAndPersist
  | backupWrite
  | emergencyDump
  | reportResult (diags : List Diag)
deriving DecidableEq, Repr

/-- The shape of a plan returned by the inline `lr.Core.Plan` call: the
number of resource changes and output changes, and `Plan.CanApply()`. -/
structure PlanShape where
  resourceChanges : Nat
  outputChanges : Nat
  canApply : Bool
deriving DecidableEq, Repr

/-- A saved plan loaded from `op.PlanFile` (`lr.Plan`): its `Errored` flag
and how many of its resource changes are not `NoOp`. -/
structure SavedPlan where
  errored : Bool
  nonNoOpChanges : Nat
deriving DecidableEq, Repr

def noConfigDiag : Diag := ⟨"No configuration files", true⟩
def executionHaltedDiag : Diag := ⟨"execution halted", true⟩
def askApprovalErrDiag : Diag := ⟨"error asking for approval", true⟩
def incompletePlanDiag : Diag := ⟨"Cannot apply incomplete plan", true⟩
def failedSaveStateDiag : Diag := ⟨"Failed to save state", true⟩
def failedLocalFileDiag : Diag := ⟨"Failed to create local state file", true⟩
def failedSerializeDiag : Diag := ⟨"Failed to serialize state", true⟩
def failedPersistDiag : Diag := ⟨"Failed to persist state to backend", true⟩

/-- Environment of one `opApply` run: every branch decision the function
reads from its operation argument or from a collaborator call. -/
structure ApplyEnv where
  experimentalRuntime : Bool
  planFile : Option SavedPlan
  destroyMode : Bool
  hasConfig : Bool
  contextDiags : List Diag
  schemasDiags : List Diag
  corePlan : Option PlanShape
  corePlanDiags : List Diag
  stopRequested : Bool
  hasUI : Bool
  autoApprove : Bool
  inputErr : Bool
  inputAnswer : String
  opWaitCancelled : Bool
  applyReturnsState : Bool
  applyDiags : List Diag
  persistFails : Bool
  backupWriteFails : Bool
  dumpFails : Bool
deriving DecidableEq, Repr

/-- Embedding of `backupStateForError`: always records the "Failed to save state" error,
always attempts the local `errored.tfstate` write, falls back to the
emergency dump of the raw state when that write fails, and in the dump
branch also records the serialization failure if even the dump fails.
Returns the appended diagnostics and the calls made. -/
def backupStateForError (writeFails dumpFails : Bool) :
    List Diag × List Event :=
  if writeFails then
    (failedSaveStateDiag :: failedLocalFileDiag ::
      (if dumpFails then [failedSerializeDiag, failedPersistDiag]
       else [failedPersistDiag]),
     [Event.backupWrite, Event.emergencyDump])
  else
    ([failedSaveStateDiag, failedPersistDiag], [Event.backupWrite])

/-- Tail of `opApply` from "Start to apply in a goroutine": the `Core.Apply`
call, the `opWait` early return, the nil-state guard, the
`statemgr.WriteAndPersist` call with its `backupStateForError` fallback,
and the final reporting. -/
def opApplyTail (env : ApplyEnv) (diags : List Diag) (trace : List Event) :
    List Event :=
  let trace := trace ++ [Event.coreApplyCall]
  if env.opWaitCancelled then trace
  else
    let diags := diags ++ env.applyDiags
    if hasErrors diags && !env.applyReturnsState then
      trace ++ [Event.reportResult diags]
    else
      let trace := trace ++ [Event.writeAndPersist]
      if env.persistFails then
        let backup := backupStateForError env.backupWriteFails env.dumpFails
        trace ++ backup.2 ++ [Event.reportResult (diags ++ backup.1)]
      else if hasErrors env.applyDiags then
        trace ++ [Event.reportResult diags]
      else
        trace ++ [Event.viewDiagnostics]

/-- The best-effort rendering condition on plan errors:
`plan != nil && (len(plan.Changes.Resources) != 0 || len(plan.Changes.Outputs) != 0)`. -/
def partialPlanNonEmpty : Option PlanShape → Bool
  | some p => p.resourceChanges ≠ 0 || p.outputChanges ≠ 0
  | none => false

/-- Local `trivialPlan := !plan.CanApply()`. -/
def trivialPlan (p : PlanShape) : Bool := !p.canApply

/-- Local `mustConfirm := hasUI && !op.AutoApprove && !trivialPlan`. -/
def mustConfirm (env : ApplyEnv) (p : PlanShape) : Bool :=
  env.hasUI && !env.autoApprove && !(trivialPlan p)

/-- The pre-prompt warning display of the confirmation gate: when any
diagnostics have accumulated they are shown and reset before asking for
approval.  Returns the diagnostics and trace after that step. -/
def confirmState (diags : List Diag) (trace : List Event) :
    List Diag × List Event :=
  if diags.isEmpty then (diags, trace)
  else (([] : List Diag), trace ++ [Event.viewDiagnostics])

/-- The interactive confirmation gate of `opApply`: show pending warnings,
ask for approval; an input error reports, any answer other than "yes"
cancels, and "yes" proceeds to the apply tail. -/
def opApplyConfirm (env : ApplyEnv) (diags : List Diag)
    (trace : List Event) : List Event :=
  if env.inputErr then
    (confirmState diags trace).2
      ++ [Event.reportResult
          ((confirmState diags trace).1 ++ [askApprovalErrDiag])]
  else if env.inputAnswer ≠ "yes" then
    (confirmState diags trace).2 ++ [Event.viewCancelled]
  else
    opApplyTail env (confirmState diags trace).1 (confirmState diags trace).2

/-- The `op.PlanFile == nil` branch of `opApply`: inline `Core.Plan` (with
`filterPlanChanges` applied to its result), best-effort rendering of a
non-empty partial plan on plan errors, the post-plan stop check, and the
interactive-approval gate.  The check-rule diagnostic filtering of the
non-interactive branch is the identity here because modelled diagnostics
carry no check-rule origin. -/
def opApplyPlanStage (env : ApplyEnv) (diags : List Diag)
    (trace : List Event) : List Event :=
  let trace := trace ++ [Event.corePlanCall]
  let diags := diags ++ env.corePlanDiags
  if hasErrors env.corePlanDiags then
    if partialPlanNonEmpty env.corePlan then
      trace ++ [Event.viewPlan, Event.reportResult diags]
    else
      trace ++ [Event.reportResult diags]
  else
    match env.corePlan with
    | none => trace
    | some p =>
      let trace := trace ++ [Event.viewPlan]
      if env.stopRequested then
        trace ++ [Event.reportResult (diags ++ [executionHaltedDiag])]
      else if mustConfirm env p then
        opApplyConfirm env diags trace
      else
        opApplyTail env diags trace

/-- Embedding of `opApply` of the local backend: the experimental-runtime redirect, the
empty-configuration guard, context/state acquisition via `localRun`,
schema loading, then either the inline plan stage or the saved-plan path
(which refuses a plan marked `Errored` and renders the saved non-NoOp
changes), and finally the apply tail. -/
def opApply (env : ApplyEnv) : List Event :=
  if env.experimentalRuntime then [Event.experimentalRuntime]
  else if env.planFile.isNone && !env.destroyMode && !env.hasConfig then
    [Event.reportResult [noConfigDiag]]
  else
    let trace := [Event.localRun]
    let diags := env.contextDiags
    if hasErrors env.contextDiags then
      trace ++ [Event.reportResult diags]
    else
      let diags := diags ++ env.schemasDiags
      if hasErrors env.schemasDiags then
        trace ++ [Event.reportResult diags]
      else
        match env.planFile with
        | none => opApplyPlanStage env diags trace
        | some saved =>
          if saved.errored then
            trace ++ [Event.reportResult (diags ++ [incompletePlanDiag])]
          else
            opApplyTail env diags
              (trace ++ List.replicate saved.nonNoOpChanges
                Event.plannedChange)

/-- A fully populated baseline environment for concrete witnesses; each
witness overrides the fields its scenario needs. -/
def baseEnv : ApplyEnv where
  experimentalRuntime := false
  planFile := none
  destroyMode := false
  hasConfig := true
  contextDiags := []
  schemasDiags := []
  corePlan := some ⟨1, 0, true⟩
  corePlanDiags := []
  stopRequested := false
  hasUI := false
  autoApprove := false
  inputErr := false
  inputAnswer := "yes"
  opWaitCancelled := false
  applyReturnsState := true
  applyDiags := []
  persistFails := false
  backupWriteFails := false
  dumpFails := false

/-- C9: an apply operation without a saved plan, not in destroy mode and
with no configuration files reports only the "No configuration files"
error, before state acquisition and before any plan or apply step. -/
theorem c9_no_config_fails_upfront (env : ApplyEnv)
    (hexp : env.experimentalRuntime = false)
    (hpf : env.planFile = none)
    (hdm : env.destroyMode = false)
    (hcfg : env.hasConfig = false) :
    opApply env = [Event.reportResult [noConfigDiag]] ∧
    Event.localRun ∉ opApply env ∧
    Event.corePlanCall ∉ opApply env ∧
    Event.coreApplyCall ∉ opApply env ∧
    Event.writeAndPersist ∉ opApply env := by
  have h : opApply env = [Event.reportResult [noConfigDiag]] := by
    simp [opApply, hexp, hpf, hdm, hcfg]
  exact ⟨h, by simp [h], by simp [h], by simp [h], by simp [h]⟩

/-- Witness for C9: the concrete no-plan, no-config, non-destroy run. -/
theorem c9_witness :
    opApply { baseEnv with hasConfig := false }
        = [Event.reportResult [noConfigDiag]] ∧
    Event.localRun ∉ opApply { baseEnv with hasConfig := false } ∧
    Event.corePlanCall ∉ opApply { baseEnv with hasConfig := false } ∧
    Event.coreApplyCall ∉ opApply { baseEnv with hasConfig := false } ∧
    Event.writeAndPersist ∉ opApply { baseEnv with hasConfig := false } :=
  c9_no_config_fails_upfront { baseEnv with hasConfig := false }
    rfl rfl rfl rfl

/-- C8: applying a saved plan whose `Errored` flag is set reports the
"Cannot apply incomplete plan" error and returns without calling
`Core.Apply` and without any state write. -/
theorem c8_errored_saved_plan_refused (env : ApplyEnv) (saved : SavedPlan)
    (hexp : env.experimentalRuntime = false)
    (hpf : env.planFile = some saved)
    (herr : saved.errored = true)
    (hctx : hasErrors env.contextDiags = false)
    (hsch : hasErrors env.schemasDiags = false) :
    opApply env = [Event.localRun,
      Event.reportResult
        (env.contextDiags ++ env.schemasDiags ++ [incompletePlanDiag])] ∧
    incompletePlanDiag
      ∈ env.contextDiags ++ env.schemasDiags ++ [incompletePlanDiag] ∧
    Event.coreApplyCall ∉ opApply env ∧
    Event.writeAndPersist ∉ opApply env := by
  have h : opApply env = [Event.localRun,
      Event.reportResult
        (env.contextDiags ++ env.schemasDiags ++ [incompletePlanDiag])] := by
    simp [opApply, hexp, hpf, herr, hctx, hsch]
  exact ⟨h, by simp, by simp [h], by simp [h]⟩

/-- Witness for C8: a saved plan with `Errored=true`. -/
theorem c8_witness :
    opApply { baseEnv with planFile := some ⟨true, 0⟩ }
        = [Event.localRun, Event.reportResult [incompletePlanDiag]] ∧
    incompletePlanDiag ∈ ([incompletePlanDiag] : List Diag) ∧
    Event.coreApplyCall ∉ opApply { baseEnv with planFile := some ⟨true, 0⟩ } ∧
    Event.writeAndPersist
      ∉ opApply { baseEnv with planFile := some ⟨true, 0⟩ } :=
  c8_errored_saved_plan_refused { baseEnv with planFile := some ⟨true, 0⟩ }
    ⟨true, 0⟩ rfl rfl rfl rfl rfl

/-- C5: when the inline plan step fails but returns a partial plan with at
least one resource or output change, `opApply` renders that plan to the
view and then reports the failure, never reaching `Core.Apply`. -/
theorem c5_partial_plan_rendered (env : ApplyEnv) (p : PlanShape)
    (hexp : env.experimentalRuntime = false)
    (hpf : env.planFile = none)
    (hcfg : env.hasConfig = true)
    (hctx : hasErrors env.contextDiags = false)
    (hsch : hasErrors env.schemasDiags = false)
    (hplan : env.corePlan = some p)
    (herr : hasErrors env.corePlanDiags = true)
    (hnz : p.resourceChanges ≠ 0 ∨ p.outputChanges ≠ 0) :
    opApply env = [Event.localRun, Event.corePlanCall, Event.viewPlan,
      Event.reportResult
        (env.contextDiags ++ env.schemasDiags ++ env.corePlanDiags)] ∧
    Event.coreApplyCall ∉ opApply env := by
  have h : opApply env = [Event.localRun, Event.corePlanCall, Event.viewPlan,
      Event.reportResult
        (env.contextDiags ++ env.schemasDiags ++ env.corePlanDiags)] := by
    rcases hnz with hnz | hnz <;>
      simp [opApply, opApplyPlanStage, partialPlanNonEmpty, hexp, hpf, hcfg,
        hctx, hsch, herr, hplan, hnz]
  exact ⟨h, by simp [h]⟩

/-- Witness for C5: an errored inline plan carrying one resource change. -/
theorem c5_witness :
    opApply { baseEnv with corePlanDiags := [⟨"provider plan failed", true⟩] }
        = [Event.localRun, Event.corePlanCall, Event.viewPlan,
           Event.reportResult [⟨"provider plan failed", true⟩]] ∧
    Event.coreApplyCall
      ∉ opApply { baseEnv with
          corePlanDiags := [⟨"provider plan failed", true⟩] } :=
  c5_partial_plan_rendered
    { baseEnv with corePlanDiags := [⟨"provider plan failed", true⟩] }
    ⟨1, 0, true⟩ rfl rfl rfl rfl rfl rfl rfl (Or.inl (by decide))

/-- C3: when `statemgr.WriteAndPersist` fails after a completed apply, the
engine writes the state to the local `errored.tfstate` file, escalates to
the emergency raw-state dump when that write also fails, and in every
branch the diagnostics it reports contain at least one error. -/
theorem c3_persist_failure_three_tier (env : ApplyEnv) (diags : List Diag)
    (trace : List Event)
    (hw : env.opWaitCancelled = false)
    (hstate : env.applyReturnsState = true)
    (hp : env.persistFails = true) :
    Event.backupWrite ∈ opApplyTail env diags trace ∧
    (env.backupWriteFails = true →
      Event.emergencyDump ∈ opApplyTail env diags trace) ∧
    ∃ ds, opApplyTail env diags trace
        = trace ++ [Event.coreApplyCall, Event.writeAndPersist]
            ++ (backupStateForError env.backupWriteFails env.dumpFails).2
            ++ [Event.reportResult ds] ∧
      hasErrors ds = true := by
  have heq : opApplyTail env diags trace
      = trace ++ [Event.coreApplyCall, Event.writeAndPersist]
          ++ (backupStateForError env.backupWriteFails env.dumpFails).2
          ++ [Event.reportResult ((diags ++ env.applyDiags)
              ++ (backupStateForError env.backupWriteFails env.dumpFails).1)] := by
    simp [opApplyTail, hw, hstate, hp]
  refine ⟨?_, ?_, ?_⟩
  · cases h : env.backupWriteFails <;> simp [heq, backupStateForError, h]
  · intro h
    simp [heq, backupStateForError, h]
  · refine ⟨_, heq, ?_⟩
    cases h : env.backupWriteFails <;>
      cases h2 : env.dumpFails <;>
        simp [hasErrors, backupStateForError, h, h2, failedSaveStateDiag]

/-- Witness for C3: a run whose backend persist and local backup both fail,
forcing the emergency dump. -/
theorem c3_witness :
    Event.backupWrite ∈ opApplyTail
      { baseEnv with persistFails := true, backupWriteFails := true }
      [] [Event.localRun] ∧
    (ApplyEnv.backupWriteFails
        { baseEnv with persistFails := true, backupWriteFails := true }
          = true →
      Event.emergencyDump ∈ opApplyTail
        { baseEnv with persistFails := true, backupWriteFails := true }
        [] [Event.localRun]) ∧
    ∃ ds, opApplyTail
        { baseEnv with persistFails := true, backupWriteFails := true }
        [] [Event.localRun]
        = [Event.localRun]
            ++ [Event.coreApplyCall, Event.writeAndPersist]
            ++ (backupStateForError true false).2
            ++ [Event.reportResult ds] ∧
      hasErrors ds = true :=
  c3_persist_failure_three_tier
    { baseEnv with persistFails := true, backupWriteFails := true }
    [] [Event.localRun] rfl rfl rfl

theorem opApplyTail_shape (env : ApplyEnv) (diags : List Diag)
    (trace : List Event)
    (hw : env.opWaitCancelled = false)
    (hstate : env.applyReturnsState = true) :
    ∃ post, opApplyTail env diags trace
      = trace ++ Event.coreApplyCall :: Event.writeAndPersist :: post := by
  by_cases hp : env.persistFails
  · exact ⟨(backupStateForError env.backupWriteFails env.dumpFails).2
      ++ [Event.reportResult ((diags ++ env.applyDiags)
          ++ (backupStateForError env.backupWriteFails env.dumpFails).1)],
      by simp [opApplyTail, hw, hstate, hp]⟩
  · by_cases ha : hasErrors env.applyDiags
    · exact ⟨[Event.reportResult (diags ++ env.applyDiags)],
        by simp [opApplyTail, hw, hstate, hp, ha]⟩
    · exact ⟨[Event.viewDiagnostics],
        by simp [opApplyTail, hw, hstate, hp, ha]⟩

theorem opApplyConfirm_reach (env : ApplyEnv) (d : List Diag)
    (t : List Event)
    (ht : Event.coreApplyCall ∉ t)
    (hr : ∀ ds, Event.reportResult ds ∉ t) :
    Event.coreApplyCall ∉ opApplyConfirm env d t ∨
      ∃ d' t', opApplyConfirm env d t = opApplyTail env d' t' ∧
        ∀ ds, Event.reportResult ds ∉ t' := by
  have hcs : (confirmState d t).2 = t ∨
      (confirmState d t).2 = t ++ [Event.viewDiagnostics] := by
    cases hd : d.isEmpty <;> simp [confirmState, hd]
  by_cases hie : env.inputErr
  · left
    rcases hcs with h | h <;>
      simp [opApplyConfirm, hie, h, ht]
  · by_cases hans : env.inputAnswer = "yes"
    · right
      refine ⟨(confirmState d t).1, (confirmState d t).2,
        by simp [opApplyConfirm, hie, hans], ?_⟩
      intro ds h
      rcases hcs with h2 | h2
      · rw [h2] at h
        exact hr ds h
      · rw [h2] at h
        rcases List.mem_append.mp h with h1 | h1
        · exact hr ds h1
        · simp at h1
    · left
      rcases hcs with h | h <;>
        simp [opApplyConfirm, hie, hans, h, ht]

theorem opApplyPlanStage_reach (env : ApplyEnv) (d : List Diag)
    (t : List Event)
    (ht : Event.coreApplyCall ∉ t)
    (hr : ∀ ds, Event.reportResult ds ∉ t) :
    Event.coreApplyCall ∉ opApplyPlanStage env d t ∨
      ∃ d' t', opApplyPlanStage env d t = opApplyTail env d' t' ∧
        ∀ ds, Event.reportResult ds ∉ t' := by
  by_cases hperr : hasErrors env.corePlanDiags
  · left
    cases hc : partialPlanNonEmpty env.corePlan <;>
      simp [opApplyPlanStage, hperr, hc, ht]
  · cases hcp : env.corePlan with
    | none =>
      left
      simp [opApplyPlanStage, hperr, hcp, ht]
    | some p =>
      by_cases hstop : env.stopRequested
      · left
        simp [opApplyPlanStage, hperr, hcp, hstop, ht]
      · by_cases hmc : mustConfirm env p = true
        · have heq : opApplyPlanStage env d t
              = opApplyConfirm env (d ++ env.corePlanDiags)
                  (t ++ [Event.corePlanCall, Event.viewPlan]) := by
            simp [opApplyPlanStage, hperr, hcp, hstop, hmc]
          rw [heq]
          exact opApplyConfirm_reach env (d ++ env.corePlanDiags)
            (t ++ [Event.corePlanCall, Event.viewPlan])
            (by simp [ht]) (by intro ds h; simp [hr ds] at h)
        · right
          refine ⟨d ++ env.corePlanDiags,
            t ++ [Event.corePlanCall, Event.viewPlan],
            by simp [opApplyPlanStage, hperr, hcp, hstop, hmc], ?_⟩
          intro ds h
          simp [hr ds] at h

theorem opApply_reaches_tail (env : ApplyEnv)
    (happly : Event.coreApplyCall ∈ opApply env) :
    ∃ d t, opApply env = opApplyTail env d t ∧
      ∀ ds, Event.reportResult ds ∉ t := by
  cases hexp : env.experimentalRuntime with
  | true => rw [opApply] at happly; simp [hexp] at happly
  | false =>
  cases hctx : hasErrors env.contextDiags with
  | true =>
    rw [opApply] at happly
    by_cases hguard : (env.planFile.isNone && !env.destroyMode
        && !env.hasConfig) = true <;>
      simp [hexp, hguard, hctx] at happly
  | false =>
  cases hsch : hasErrors env.schemasDiags with
  | true =>
    rw [opApply] at happly
    by_cases hguard : (env.planFile.isNone && !env.destroyMode
        && !env.hasConfig) = true <;>
      simp [hexp, hguard, hctx, hsch] at happly
  | false =>
  cases hpf : env.planFile with
  | some saved =>
    cases herr : saved.errored with
    | true =>
      rw [opApply] at happly
      simp [hexp, hctx, hsch, hpf, herr] at happly
    | false =>
      refine ⟨env.contextDiags ++ env.schemasDiags,
        Event.localRun :: List.replicate saved.nonNoOpChanges
          Event.plannedChange, ?_, ?_⟩
      · simp [opApply, hexp, hctx, hsch, hpf, herr]
      · intro ds h
        simp [List.mem_replicate] at h
  | none =>
    have hg : env.destroyMode = true ∨ env.hasConfig = true := by
      by_contra hcon
      push_neg at hcon
      rw [opApply] at happly
      simp [hexp, hpf, Bool.eq_false_iff.mpr hcon.1,
        Bool.eq_false_iff.mpr hcon.2] at happly
    have heq : opApply env
        = opApplyPlanStage env (env.contextDiags ++ env.schemasDiags)
            [Event.localRun] := by
      rcases hg with h | h <;> simp [opApply, hexp, hctx, hsch, hpf, h]
    rcases opApplyPlanStage_reach env (env.contextDiags ++ env.schemasDiags)
        [Event.localRun] (by simp) (by intro ds; simp) with h | ⟨d', t', hps, hnr⟩
    · rw [heq] at happly
      exact absurd happly h
    · exact ⟨d', t', heq.trans hps, hnr⟩

/-- C2: whenever the apply phase runs to completion and `Core.Apply`
returns a state, `opApply` writes and persists that state through the
state manager before it reports anything to the caller — apply errors do
not skip the state write. -/
theorem c2_state_written_before_report (env : ApplyEnv)
    (hw : env.opWaitCancelled = false)
    (hstate : env.applyReturnsState = true)
    (happly : Event.coreApplyCall ∈ opApply env) :
    ∃ pre post, opApply env = pre ++ Event.writeAndPersist :: post ∧
      ∀ ds, Event.reportResult ds ∉ pre := by
  obtain ⟨d, t, heq, hnorep⟩ := opApply_reaches_tail env happly
  obtain ⟨post, hshape⟩ := opApplyTail_shape env d t hw hstate
  refine ⟨t ++ [Event.coreApplyCall], post, ?_, ?_⟩
  · rw [heq, hshape]; simp
  · intro ds h
    rcases List.mem_append.mp h with h1 | h1
    · exact hnorep ds h1
    · simp at h1

/-- Witness for C2: a saved-plan apply whose provider apply fails but
returns a partial state; the trace still writes state before reporting. -/
theorem c2_witness :
    ∃ pre post,
      opApply { baseEnv with
        planFile := some ⟨false, 1⟩,
        applyDiags := [⟨"provider apply failed", true⟩] }
        = pre ++ Event.writeAndPersist :: post ∧
      ∀ ds, Event.reportResult ds ∉ pre :=
  c2_state_written_before_report
    { baseEnv with
      planFile := some ⟨false, 1⟩,
      applyDiags := [⟨"provider apply failed", true⟩] }
    rfl rfl (by decide)

/-! ## The single-to-single state-migration shortcut

The "no reason to migrate" check of `backendMigrateState_s_s`
(`meta_backend_migrate.go`): after refreshing both state managers, if the
two states are `Equal` (deep value equality that does not look at lineage)
the function returns success without copying, but only after comparing the
snapshot metadata lineages when both managers expose them.  States are
modelled opaquely by their canonical content (`none` models a nil state
pointer); lineages are the `StateSnapshotMeta().Lineage` strings of the
two managers, `none` modelling a manager that does not implement
`statemgr.PersistentMeta`. -/

def migrationShortcutSkips (source destination : Option String)
    (sm1 sm2 : Option String) : Bool :=
  if source == destination then
    if source.isSome && destination.isSome then
      match sm1, sm2 with
      | none, _ => true
      | _, none => true
      | some l1, some l2 => l1 == l2
    else false
  else false

/-- C6: with both managers exposing snapshot metadata, migration between
two single-workspace state managers is skipped exactly when the two equal
states also share their lineage; equal states with different lineages do
not take the shortcut, so divergent histories are never silently treated
as the same. -/
theorem c6_equal_states_skip_iff_same_lineage
    (s d : Option String) (l1 l2 : String)
    (heq : s = d) (hs : s ≠ none) :
    (migrationShortcutSkips s d (some l1) (some l2) = true ↔ l1 = l2) := by
  subst heq
  cases s with
  | none => exact absurd rfl hs
  | some a => simp [migrationShortcutSkips]

/-- Witness for C6: two equal states, first with equal lineages (skipped),
then with different lineages (not skipped). -/
theorem c6_witness :
    (migrationShortcutSkips (some "st") (some "st")
        (some "lineage-a") (some "lineage-a") = true ↔
      "lineage-a" = "lineage-a") ∧
    (migrationShortcutSkips (some "st") (some "st")
        (some "lineage-a") (some "lineage-b") = true ↔
      "lineage-a" = "lineage-b") :=
  ⟨c6_equal_states_skip_iff_same_lineage (some "st") (some "st")
      "lineage-a" "lineage-a" rfl (by decide),
    c6_equal_states_skip_iff_same_lineage (some "st") (some "st")
      "lineage-a" "lineage-b" rfl (by decide)⟩

/-! ## SHA bookkeeping (`internal/farseek/sha.go`)

`ReadSHA`/`WriteSHA` over a file-system model: a mapping from paths to
file contents, where an absent path makes `os.ReadFile` fail with a
not-exist error (the only read failure modelled). -/

structure FS where
  files : String → Option String

inductive FsErr where
  | notExist
deriving DecidableEq, Repr

def readFile (fs : FS) (path : String) : Except FsErr String :=
  match fs.files path with
  | some data => Except.ok data
  | none => Except.error FsErr.notExist

def writeFile (fs : FS) (path content : String) : FS :=
  ⟨fun q => if q = path then some content else fs.files q⟩

/-- Embedding of `strings.TrimSpace`: remove leading and trailing whitespace. -/
def trimSpace (s : String) : String :=
  ⟨((s.data.dropWhile Char.isWhitespace).reverse.dropWhile
      Char.isWhitespace).reverse⟩

def SHAFilename : String := ".farseek_sha"

/-- Embedding of `filepath.Join(dir, SHAFilename)`. -/
def shaPath (dir : String) : String := dir ++ "/" ++ SHAFilename

/-- Embedding of `ReadSHA`: reads the last analyzed commit SHA from the `.farseek_sha`
file: a missing file yields the empty string with no error, any other
read error is propagated, and on success the content is
whitespace-trimmed. -/
def ReadSHA (fs : FS) (dir : String) : Except FsErr String :=
  match readFile fs (shaPath dir) with
  | Except.error e =>
    if e = FsErr.notExist then Except.ok "" else Except.error e
  | Except.ok data => Except.ok (trimSpace data)

/-- Embedding of `WriteSHA`: overwrites the `.farseek_sha` file with the given SHA. -/
def WriteSHA (fs : FS) (dir sha : String) : FS :=
  writeFile fs (shaPath dir) sha

/-- C10: after `WriteSHA dir s`, `ReadSHA dir` returns the
whitespace-trimmed `s` without error; and on a directory with no
`.farseek_sha` file, `ReadSHA` returns the empty string without error. -/
theorem c10_sha_roundtrip (fs : FS) (dir s : String) :
    ReadSHA (WriteSHA fs dir s) dir = Except.ok (trimSpace s) ∧
    (fs.files (shaPath dir) = none → ReadSHA fs dir = Except.ok "") := by
  constructor
  · simp [ReadSHA, WriteSHA, writeFile, readFile]
  · intro h
    simp [ReadSHA, readFile, h]

/-- Witness for C10: writing a newline-terminated SHA and reading it back
trimmed, plus reading from an empty file system. -/
theorem c10_witness :
    ReadSHA (WriteSHA ⟨fun _ => none⟩ "proj" "abc123\n") "proj"
        = Except.ok "abc123" ∧
    ReadSHA ⟨fun _ => none⟩ "proj" = Except.ok "" :=
  ⟨(c10_sha_roundtrip ⟨fun _ => none⟩ "proj" "abc123\n").1,
    (c10_sha_roundtrip ⟨fun _ => none⟩ "proj" "anything").2 rfl⟩

/-! ## State encryption -/

/-- Modelled from the spec: the state encryption collaborator's
`EncryptState`/`DecryptState` implementation
(`internal/encryption/method`) is not among the analyzed sources — only
its registration and tests are.  The spec describes it as an "opaque
byte-stream encrypt/decrypt on the whole payload, applied at the
outermost layer after serialization".  We model the unencrypted
passthrough method and an AES-GCM-style method: a key-derived stream
cipher over the payload bytes with an appended fixed-length
authentication tag. -/
inductive EncryptionMethod where
  | unencrypted
  | aesgcm (key : List Nat)
deriving DecidableEq, Repr

/-- Key-derived stream byte at position `i` (stand-in for the AES key
stream). -/
def keyByte (key : List Nat) (i : Nat) : Nat :=
  (key.foldl (fun a b => a + b) 0 + i) % 256

/-- XOR a byte list against a key stream starting at offset `i`. -/
def xorStream (ks : Nat → Nat) : Nat → List Nat → List Nat
  | _, [] => []
  | i, b :: rest => (b ^^^ ks i) :: xorStream ks (i + 1) rest

def gcmTagLength : Nat := 16

/-- Stand-in for the GCM authentication tag appended to the ciphertext. -/
def gcmTag (key payload : List Nat) : List Nat :=
  List.replicate gcmTagLength ((key.length + payload.length) % 256)

/-- Modelled from the spec: `EncryptState` of a state-file encryption,
applied to the whole serialized payload. -/
def EncryptState : EncryptionMethod → List Nat → List Nat
  | EncryptionMethod.unencrypted, payload => payload
  | EncryptionMethod.aesgcm key, payload =>
    xorStream (keyByte key) 0 payload ++ gcmTag key payload

/-- Modelled from the spec: `DecryptState`, the inverse transformation. -/
def DecryptState : EncryptionMethod → List Nat → List Nat
  | EncryptionMethod.unencrypted, data => data
  | EncryptionMethod.aesgcm key, data =>
    xorStream (keyByte key) 0 (data.take (data.length - gcmTagLength))

theorem xorStream_length (ks : Nat → Nat) (i : Nat) (l : List Nat) :
    (xorStream ks i l).length = l.length := by
  induction l generalizing i with
  | nil => rfl
  | cons b rest ih => simp [xorStream, ih]

theorem xorStream_involutive (ks : Nat → Nat) (i : Nat) (l : List Nat) :
    xorStream ks i (xorStream ks i l) = l := by
  induction l generalizing i with
  | nil => rfl
  | cons b rest ih =>
    simp [xorStream, ih, Nat.xor_assoc]

/-- C7: state encryption is invertible on every payload for every
configured method, and an actual encryption method (as opposed to the
unencrypted passthrough) never returns the payload unchanged. -/
theorem c7_encrypt_decrypt_roundtrip (m : EncryptionMethod)
    (payload : List Nat) :
    DecryptState m (EncryptState m payload) = payload ∧
    ∀ key : List Nat,
      EncryptState (EncryptionMethod.aesgcm key) payload ≠ payload := by
  constructor
  · cases m with
    | unencrypted => rfl
    | aesgcm key =>
      have hlen : (xorStream (keyByte key) 0 payload).length
          = payload.length := xorStream_length _ _ _
      simp only [EncryptState, DecryptState, List.length_append, hlen,
        gcmTag, List.length_replicate, Nat.add_sub_cancel]
      rw [List.take_left' hlen, xorStream_involutive]
  · intro key h
    have := congrArg List.length h
    simp [EncryptState, xorStream_length, gcmTag, gcmTagLength] at this

/-- Witness for C7: a concrete dual-custody-style payload round-trips and
its ciphertext differs from the plaintext. -/
theorem c7_witness :
    DecryptState (EncryptionMethod.aesgcm [7, 11])
        (EncryptState (EncryptionMethod.aesgcm [7, 11]) [42, 0, 255])
      = [42, 0, 255] ∧
    EncryptState (EncryptionMethod.aesgcm [7, 11]) [42, 0, 255]
      ≠ [42, 0, 255] :=
  ⟨(c7_encrypt_decrypt_roundtrip (EncryptionMethod.aesgcm [7, 11])
      [42, 0, 255]).1,
    (c7_encrypt_decrypt_roundtrip (EncryptionMethod.aesgcm [7, 11])
      [42, 0, 255]).2 [7, 11]⟩

end Farseek
